import Mathlib

/-!
Verification development for the swap-execution core of the osmosis
concentrated-liquidity repository.

The embedding models the directional swap strategy in
x/concentrated-liquidity/swapstrategy/one_for_zero.go (the price-increasing,
one-for-zero variant), the position bookkeeping of the concentrated_liquidity
keeper, and the authenticator message server.

Fixed-point decimals (sdk.Dec) carry 18 fractional digits; we represent a
decimal as the integer number of 10^-18 units.  The high-precision
representation (osmomath.BigDec) carries 36 fractional digits and is
represented as the integer number of 10^-36 units.  The precision-arithmetic
library and the price/tick conversion formulas are not part of the provided
source tree, so they are modelled from the spec (sections 4.1 and 4.2):
truncation with caller-specified rounding direction, token one linear in the
square-root price, token zero linear in its reciprocal.
-/

/-- One in sdk.Dec units: 10^18 units of 10^-18 each. -/
def decOne : Int := 10 ^ 18

/-- Scale factor of the high-precision (BigDec) representation. -/
def bigDecScale : Int := 10 ^ 36

/-- Ceiling division on integers (for a positive divisor), used for the
rounding directions that favor the pool. -/
def ceilDiv (a b : Int) : Int := -((-a) / b)

/-- Modelled from the spec: fixed-point multiplication on sdk.Dec values
(section 4.1), truncating the digits below the 18th fractional place. -/
def decMul (x y : Int) : Int := x * y / decOne

/-- Modelled from the spec: lossless conversion from the standard 18-digit
representation to the 36-digit high-precision representation (section 4.1). -/
def BigDecFromSDKDec (d : Int) : Int := d * 10 ^ 18

/-- Modelled from the spec: truncating conversion from the high-precision
representation back to sdk.Dec (section 4.1); truncation is toward zero. -/
def SDKDecFromBigDec (b : Int) : Int := if 0 ≤ b then b / 10 ^ 18 else -((-b) / 10 ^ 18)

/-- Modelled from the spec: calcAmount1Delta (section 4.2) computes the amount
of token one implied by liquidity held between two square-root prices.  Token
one is linear in the square-root price, so the exact value is
liquidity * |sqrtPriceA - sqrtPriceB|; the result is symmetric in the price
arguments and is rounded at the 18th fractional digit, up (in favor of the
pool) when roundUp is set and down otherwise. -/
def CalcAmount1Delta (liquidity sqrtPriceA sqrtPriceB : Int) (roundUp : Bool) : Int :=
  let diff := |sqrtPriceA - sqrtPriceB|
  if roundUp then ceilDiv (liquidity * diff) decOne
  else liquidity * diff / decOne

/-- Modelled from the spec: calcAmount0Delta (section 4.2) computes the amount
of token zero implied by liquidity held between two square-root prices.  Token
zero is linear in the reciprocal price, so the exact value is
liquidity * |sqrtPriceA - sqrtPriceB| / (sqrtPriceA * sqrtPriceB); the
result is rounded up when roundUp is set and down otherwise. -/
def CalcAmount0Delta (liquidity sqrtPriceA sqrtPriceB : Int) (roundUp : Bool) : Int :=
  let diff := |sqrtPriceA - sqrtPriceB|
  if roundUp then ceilDiv (liquidity * diff * decOne) (sqrtPriceA * sqrtPriceB)
  else liquidity * diff * decOne / (sqrtPriceA * sqrtPriceB)

/-- Modelled from the spec: getNextSqrtPriceFromAmount1InRoundingDown
(section 4.2) solves for the square-root price reached from sqrtPriceCurrent
after adding amountRemaining of token one to liquidity; token one is linear in
the square-root price, so the increment is amountRemaining / liquidity,
rounded down. -/
def GetNextSqrtPriceFromAmount1InRoundingDown
    (sqrtPriceCurrent liquidity amountRemaining : Int) : Int :=
  sqrtPriceCurrent + amountRemaining * decOne / liquidity

/-- Modelled from the spec: the high-precision form of
getNextSqrtPriceFromAmount1InRoundingDown with identical mathematical
semantics at 36 fractional digits (sections 4.1, 4.2). -/
def GetNextSqrtPriceFromAmount1InRoundingDownBigDec
    (sqrtPriceCurrent liquidity amountRemaining : Int) : Int :=
  sqrtPriceCurrent + amountRemaining * bigDecScale / liquidity

/-- Modelled from the spec: the high-precision form of calcAmount0Delta with
identical mathematical semantics at 36 fractional digits (sections 4.1, 4.2). -/
def CalcAmount0DeltaBigDec (liquidity sqrtPriceA sqrtPriceB : Int) (roundUp : Bool) : Int :=
  let diff := |sqrtPriceA - sqrtPriceB|
  if roundUp then ceilDiv (liquidity * diff * bigDecScale) (sqrtPriceA * sqrtPriceB)
  else liquidity * diff * bigDecScale / (sqrtPriceA * sqrtPriceB)

/-- Modelled from the spec: the per-step spread-reward charge on the token
flowing into the pool (section 4.4 step 3): when the bucket target is reached
the charge is amountIn * spreadFactor / (1 - spreadFactor) rounded up in favor
of the pool; otherwise the whole leftover of the remaining specified amount is
the charge.  A zero spread factor charges nothing. -/
def computeSpreadRewardChargePerSwapStepOutGivenIn
    (hasReachedTarget : Bool) (amountIn amountSpecifiedRemaining spreadFactor : Int) : Int :=
  if spreadFactor = 0 then 0
  else if hasReachedTarget then ceilDiv (amountIn * spreadFactor) (decOne - spreadFactor)
  else amountSpecifiedRemaining - amountIn

/-- Modelled from the spec: the global upper bound on square-root prices
(section 3); the exact constant is implementation-defined (section 8), here the
square root of the maximal spot price 10^21, truncated to 18 fractional
digits. -/
def MaxSqrtPrice : Int := 31622776601683793319988935444

/-- The price-increasing (one-for-zero) strategy from
swapstrategy/one_for_zero.go; it carries the caller's square-root price limit
and the pool's spread factor.  The store key field of the Go struct is
replaced by passing tick stores explicitly to the iterator function. -/
structure OneForZeroStrategy where
  sqrtPriceLimit : Int
  spreadFactor : Int
deriving DecidableEq

/-- GetSqrtTargetPrice from one_for_zero.go: if the given nextTickSqrtPrice is
greater than the sqrt price limit, the sqrt price limit is returned; otherwise
the input nextTickSqrtPrice is returned. -/
def OneForZeroStrategy.GetSqrtTargetPrice (s : OneForZeroStrategy)
    (nextTickSqrtPrice : Int) : Int :=
  if s.sqrtPriceLimit < nextTickSqrtPrice then s.sqrtPriceLimit
  else nextTickSqrtPrice

/-- The SqrtPriceValidationError returned by ValidateSqrtPrice. -/
structure SqrtPriceValidationError where
  sqrtPriceLimit : Int
  lowerBound : Int
  upperBound : Int
deriving DecidableEq

/-- ValidateSqrtPrice from one_for_zero.go: the limit must be at or above the
current square-root price and at or below the global maximum. -/
def OneForZeroStrategy.ValidateSqrtPrice (sqrtPrice currentSqrtPrice : Int) :
    Option SqrtPriceValidationError :=
  if sqrtPrice < currentSqrtPrice ∨ MaxSqrtPrice < sqrtPrice then
    some ⟨sqrtPrice, currentSqrtPrice, MaxSqrtPrice⟩
  else none

/-- The four results of a swap step within one bucket, in the order returned
by the Go function: next sqrt price, token one in consumed, token zero out
produced, total spread reward charge. -/
structure SwapStepResult where
  sqrtPriceNext : Int
  amountOneIn : Int
  amountZeroOut : Int
  spreadRewardChargeTotal : Int
deriving DecidableEq

/-- ComputeSwapWithinBucketOutGivenIn of the one-for-zero strategy
(one_for_zero.go lines 58-113).  Note that the Go guard
sqrtPriceTarget == sqrtPriceNext compares the pointers inside sdk.Dec
structs, which holds exactly when the target branch assigned sqrtPriceNext,
so hasReachedTarget is embedded as that branch condition. -/
def OneForZeroStrategy.ComputeSwapWithinBucketOutGivenIn (s : OneForZeroStrategy)
    (sqrtPriceCurrent sqrtPriceTarget liquidity amountOneInRemaining : Int) :
    SwapStepResult :=
  let amountOneInToTarget := CalcAmount1Delta liquidity sqrtPriceTarget sqrtPriceCurrent true
  let amountOneInRemainingLessSpreadReward :=
    decMul amountOneInRemaining (decOne - s.spreadFactor)
  let sqrtPriceNext :=
    if amountOneInToTarget ≤ amountOneInRemainingLessSpreadReward then sqrtPriceTarget
    else GetNextSqrtPriceFromAmount1InRoundingDown sqrtPriceCurrent liquidity
      amountOneInRemainingLessSpreadReward
  let amountOneIn :=
    if amountOneInToTarget ≤ amountOneInRemainingLessSpreadReward then amountOneInToTarget
    else CalcAmount1Delta liquidity sqrtPriceNext sqrtPriceCurrent true
  let amountZeroOut := CalcAmount0Delta liquidity sqrtPriceNext sqrtPriceCurrent false
  if ¬ amountOneInToTarget ≤ amountOneInRemainingLessSpreadReward ∧
      sqrtPriceCurrent = sqrtPriceNext ∧ amountOneIn = 0 ∧ amountOneInRemaining ≠ 0 then
    -- precision-loss edge case: recompute with the high-precision
    -- representation and charge the full remaining amount in.
    let liquidityBigDec := BigDecFromSDKDec liquidity
    let sqrtPriceCurrentBigDec := BigDecFromSDKDec sqrtPriceCurrent
    let sqrtPriceNextBigDec := GetNextSqrtPriceFromAmount1InRoundingDownBigDec
      sqrtPriceCurrentBigDec liquidityBigDec (BigDecFromSDKDec amountOneInRemaining)
    { sqrtPriceNext := sqrtPriceNext
      amountOneIn := amountOneInRemaining
      amountZeroOut := SDKDecFromBigDec
        (CalcAmount0DeltaBigDec liquidityBigDec sqrtPriceNextBigDec sqrtPriceCurrentBigDec false)
      spreadRewardChargeTotal := computeSpreadRewardChargePerSwapStepOutGivenIn
        false amountOneInRemaining amountOneInRemaining s.spreadFactor }
  else
    { sqrtPriceNext := sqrtPriceNext
      amountOneIn := amountOneIn
      amountZeroOut := amountZeroOut
      spreadRewardChargeTotal := computeSpreadRewardChargePerSwapStepOutGivenIn
        (decide (amountOneInToTarget ≤ amountOneInRemainingLessSpreadReward))
        amountOneIn amountOneInRemaining s.spreadFactor }

/-- The high-precision intermediate sqrt price computed by the edge-case
recovery of ComputeSwapWithinBucketOutGivenIn, named so that theorems can
refer to it. -/
def edgeCaseSqrtPriceNextBigDec (sqrtPriceCurrent liquidity amountOneInRemaining : Int) : Int :=
  GetNextSqrtPriceFromAmount1InRoundingDownBigDec
    (BigDecFromSDKDec sqrtPriceCurrent) (BigDecFromSDKDec liquidity)
    (BigDecFromSDKDec amountOneInRemaining)

/-! ### Helper lemmas about the fixed-point arithmetic -/

theorem decOne_pos : (0 : Int) < decOne := by norm_num [decOne]

theorem ceilDiv_le_iff {a b c : Int} (hb : 0 < b) : ceilDiv a b ≤ c ↔ a ≤ c * b := by
  unfold ceilDiv
  rw [neg_le, Int.le_ediv_iff_mul_le hb, neg_mul, neg_le_neg_iff]

theorem decMul_nonneg {x y : Int} (hx : 0 ≤ x) (hy : 0 ≤ y) : 0 ≤ decMul x y :=
  Int.ediv_nonneg (mul_nonneg hx hy) decOne_pos.le

theorem nonneg_of_ediv_eq_zero {a b : Int} (hb : 0 < b) (h : a / b = 0) : 0 ≤ a := by
  by_contra hneg
  push_neg at hneg
  exact absurd h (ne_of_lt (Int.ediv_neg' hneg hb))

theorem nonneg_of_decMul_nonneg {x y : Int} (hy : 0 < y) (h : 0 ≤ decMul x y) : 0 ≤ x := by
  unfold decMul at h
  have hxy : 0 ≤ x * y := by
    by_contra hneg
    push_neg at hneg
    exact absurd h (not_le.mpr (Int.ediv_neg' hneg decOne_pos))
  exact (mul_nonneg_iff_of_pos_right hy).mp hxy

/-- Unfolds the returned square-root price of the swap step: it is the
bucket target when the remaining amount after the spread reward covers the
estimate, and the price solved from the remaining amount otherwise; the
precision-loss recovery never changes it. -/
theorem computeSwapOutGivenIn_sqrtPriceNext_eq (s : OneForZeroStrategy)
    (sqrtPriceCurrent sqrtPriceTarget liquidity amountOneInRemaining : Int) :
    (s.ComputeSwapWithinBucketOutGivenIn
        sqrtPriceCurrent sqrtPriceTarget liquidity amountOneInRemaining).sqrtPriceNext =
      if CalcAmount1Delta liquidity sqrtPriceTarget sqrtPriceCurrent true ≤
          decMul amountOneInRemaining (decOne - s.spreadFactor)
      then sqrtPriceTarget
      else GetNextSqrtPriceFromAmount1InRoundingDown sqrtPriceCurrent liquidity
        (decMul amountOneInRemaining (decOne - s.spreadFactor)) := by
  simp only [OneForZeroStrategy.ComputeSwapWithinBucketOutGivenIn]
  split <;> split <;> rfl

/-- C2: within one price-increasing swap step with sqrtPriceCurrent at or
below sqrtPriceTarget, positive liquidity, a non-negative remaining amount of
token one in, and a spread factor in [0, 1) as required by the pool data
model, the returned square-root price lies between the current and the target
square-root prices, so the square-root prices visited by the swap are
non-decreasing. -/
theorem computeSwapOutGivenIn_sqrtPriceNext_bounds (s : OneForZeroStrategy)
    (sqrtPriceCurrent sqrtPriceTarget liquidity amountOneInRemaining : Int)
    (hct : sqrtPriceCurrent ≤ sqrtPriceTarget) (hliq : 0 < liquidity)
    (hrem : 0 ≤ amountOneInRemaining)
    (hsf0 : 0 ≤ s.spreadFactor) (hsf1 : s.spreadFactor < decOne) :
    sqrtPriceCurrent ≤ (s.ComputeSwapWithinBucketOutGivenIn sqrtPriceCurrent sqrtPriceTarget
        liquidity amountOneInRemaining).sqrtPriceNext ∧
      (s.ComputeSwapWithinBucketOutGivenIn sqrtPriceCurrent sqrtPriceTarget liquidity
        amountOneInRemaining).sqrtPriceNext ≤ sqrtPriceTarget := by
  rw [computeSwapOutGivenIn_sqrtPriceNext_eq]
  set rem' := decMul amountOneInRemaining (decOne - s.spreadFactor) with hrem'def
  have hrem'0 : 0 ≤ rem' := decMul_nonneg hrem (by omega)
  split
  · exact ⟨hct, le_refl _⟩
  · rename_i h
    unfold GetNextSqrtPriceFromAmount1InRoundingDown
    have h1 : 0 ≤ rem' * decOne / liquidity :=
      Int.ediv_nonneg (mul_nonneg hrem'0 decOne_pos.le) hliq.le
    have h2 : rem' * decOne / liquidity < sqrtPriceTarget - sqrtPriceCurrent := by
      rw [Int.ediv_lt_iff_lt_mul hliq]
      have h3 : ¬ liquidity * (sqrtPriceTarget - sqrtPriceCurrent) ≤ rem' * decOne := by
        intro hcontra
        apply h
        unfold CalcAmount1Delta
        rw [if_pos rfl, abs_of_nonneg (by omega : (0:Int) ≤ sqrtPriceTarget - sqrtPriceCurrent),
          ceilDiv_le_iff decOne_pos]
        exact hcontra
      push_neg at h3
      linarith [h3]
    constructor
    · linarith [h1]
    · linarith [h2]

/-- Witness for C2 at concrete inputs. -/
theorem computeSwapOutGivenIn_sqrtPriceNext_bounds_witness :
    (1 : Int) ≤ ((⟨10 ^ 18, 0⟩ : OneForZeroStrategy).ComputeSwapWithinBucketOutGivenIn
        1 2 (10 ^ 18) 1).sqrtPriceNext ∧
      ((⟨10 ^ 18, 0⟩ : OneForZeroStrategy).ComputeSwapWithinBucketOutGivenIn
        1 2 (10 ^ 18) 1).sqrtPriceNext ≤ 2 :=
  computeSwapOutGivenIn_sqrtPriceNext_bounds ⟨10 ^ 18, 0⟩ 1 2 (10 ^ 18) 1
    (by decide) (by decide) (by decide) (by decide) (by decide)

/-- C3: when the remaining amount of token one in, after deducting the spread
reward, is at least the estimate of token one needed to reach the bucket
target, the step reaches the target exactly and consumes exactly the
estimate. -/
theorem computeSwapOutGivenIn_reaches_target (s : OneForZeroStrategy)
    (sqrtPriceCurrent sqrtPriceTarget liquidity amountOneInRemaining : Int)
    (h : CalcAmount1Delta liquidity sqrtPriceTarget sqrtPriceCurrent true ≤
      decMul amountOneInRemaining (decOne - s.spreadFactor)) :
    (s.ComputeSwapWithinBucketOutGivenIn sqrtPriceCurrent sqrtPriceTarget liquidity
        amountOneInRemaining).sqrtPriceNext = sqrtPriceTarget ∧
      (s.ComputeSwapWithinBucketOutGivenIn sqrtPriceCurrent sqrtPriceTarget liquidity
        amountOneInRemaining).amountOneIn =
        CalcAmount1Delta liquidity sqrtPriceTarget sqrtPriceCurrent true := by
  constructor
  · rw [computeSwapOutGivenIn_sqrtPriceNext_eq, if_pos h]
  · simp only [OneForZeroStrategy.ComputeSwapWithinBucketOutGivenIn]
    simp [h]

/-- Witness for C3 at concrete inputs. -/
theorem computeSwapOutGivenIn_reaches_target_witness :
    ((⟨10 ^ 18, 0⟩ : OneForZeroStrategy).ComputeSwapWithinBucketOutGivenIn
        1 2 (10 ^ 18) 2).sqrtPriceNext = 2 ∧
      ((⟨10 ^ 18, 0⟩ : OneForZeroStrategy).ComputeSwapWithinBucketOutGivenIn
        1 2 (10 ^ 18) 2).amountOneIn = CalcAmount1Delta (10 ^ 18) 2 1 true :=
  computeSwapOutGivenIn_reaches_target ⟨10 ^ 18, 0⟩ 1 2 (10 ^ 18) 2 (by decide)

/-- C1: in the precision-loss edge case — the bucket target is not reached,
the intermediate square-root price rounds down to exactly the current one,
the counter amount of token zero out computes to zero, and the remaining
amount of token one in is nonzero — the step charges the entire remaining
amount of token one in, and the counter amount is recomputed from the
high-precision intermediate square-root price, which is nonzero (positive). -/
theorem computeSwapOutGivenIn_edge_case (s : OneForZeroStrategy)
    (sqrtPriceCurrent sqrtPriceTarget liquidity amountOneInRemaining : Int)
    (hsf1 : s.spreadFactor < decOne)
    (hcur : 0 < sqrtPriceCurrent) (hliq : 0 < liquidity)
    (hnr : ¬ CalcAmount1Delta liquidity sqrtPriceTarget sqrtPriceCurrent true ≤
      decMul amountOneInRemaining (decOne - s.spreadFactor))
    (hstall : GetNextSqrtPriceFromAmount1InRoundingDown sqrtPriceCurrent liquidity
      (decMul amountOneInRemaining (decOne - s.spreadFactor)) = sqrtPriceCurrent)
    (hzeroOut : CalcAmount0Delta liquidity (GetNextSqrtPriceFromAmount1InRoundingDown
      sqrtPriceCurrent liquidity (decMul amountOneInRemaining (decOne - s.spreadFactor)))
      sqrtPriceCurrent false = 0)
    (hremne : amountOneInRemaining ≠ 0) :
    (s.ComputeSwapWithinBucketOutGivenIn sqrtPriceCurrent sqrtPriceTarget liquidity
        amountOneInRemaining).amountOneIn = amountOneInRemaining ∧
      (s.ComputeSwapWithinBucketOutGivenIn sqrtPriceCurrent sqrtPriceTarget liquidity
        amountOneInRemaining).amountZeroOut =
        SDKDecFromBigDec (CalcAmount0DeltaBigDec (BigDecFromSDKDec liquidity)
          (edgeCaseSqrtPriceNextBigDec sqrtPriceCurrent liquidity amountOneInRemaining)
          (BigDecFromSDKDec sqrtPriceCurrent) false) ∧
      0 < edgeCaseSqrtPriceNextBigDec sqrtPriceCurrent liquidity amountOneInRemaining := by
  have hamt0 : CalcAmount1Delta liquidity (GetNextSqrtPriceFromAmount1InRoundingDown
      sqrtPriceCurrent liquidity (decMul amountOneInRemaining (decOne - s.spreadFactor)))
      sqrtPriceCurrent true = 0 := by
    rw [hstall]
    simp [CalcAmount1Delta, ceilDiv]
  have hrem_pos : 0 < amountOneInRemaining := by
    have h0 : decMul amountOneInRemaining (decOne - s.spreadFactor) * decOne / liquidity = 0 := by
      have h := hstall
      unfold GetNextSqrtPriceFromAmount1InRoundingDown at h
      omega
    have h1 : 0 ≤ decMul amountOneInRemaining (decOne - s.spreadFactor) * decOne :=
      nonneg_of_ediv_eq_zero hliq h0
    have h2 : 0 ≤ decMul amountOneInRemaining (decOne - s.spreadFactor) :=
      (mul_nonneg_iff_of_pos_right decOne_pos).mp h1
    have h3 : 0 ≤ amountOneInRemaining := nonneg_of_decMul_nonneg (by omega) h2
    omega
  refine ⟨?_, ?_, ?_⟩
  · simp only [OneForZeroStrategy.ComputeSwapWithinBucketOutGivenIn]
    rw [if_pos ⟨hnr, by simp only [if_neg hnr]; exact hstall.symm,
      by simp only [if_neg hnr]; exact hamt0, hremne⟩]
  · simp only [OneForZeroStrategy.ComputeSwapWithinBucketOutGivenIn]
    rw [if_pos ⟨hnr, by simp only [if_neg hnr]; exact hstall.symm,
      by simp only [if_neg hnr]; exact hamt0, hremne⟩]
    rfl
  · unfold edgeCaseSqrtPriceNextBigDec GetNextSqrtPriceFromAmount1InRoundingDownBigDec
      BigDecFromSDKDec
    have h4 : 0 ≤ amountOneInRemaining * 10 ^ 18 * bigDecScale / (liquidity * 10 ^ 18) :=
      Int.ediv_nonneg
        (mul_nonneg (mul_nonneg hrem_pos.le (by norm_num)) (by norm_num [bigDecScale]))
        (mul_nonneg hliq.le (by norm_num))
    have h5 : 0 < sqrtPriceCurrent * 10 ^ 18 := mul_pos hcur (by norm_num)
    linarith [h4, h5]

/-- Witness for C1 at concrete inputs exercising the recovery branch. -/
theorem computeSwapOutGivenIn_edge_case_witness :
    ((⟨10 ^ 19, 0⟩ : OneForZeroStrategy).ComputeSwapWithinBucketOutGivenIn
        (10 ^ 18) (10 ^ 18 + 1) (10 ^ 36) 1).amountOneIn = 1 ∧
      ((⟨10 ^ 19, 0⟩ : OneForZeroStrategy).ComputeSwapWithinBucketOutGivenIn
        (10 ^ 18) (10 ^ 18 + 1) (10 ^ 36) 1).amountZeroOut =
        SDKDecFromBigDec (CalcAmount0DeltaBigDec (BigDecFromSDKDec (10 ^ 36))
          (edgeCaseSqrtPriceNextBigDec (10 ^ 18) (10 ^ 36) 1)
          (BigDecFromSDKDec (10 ^ 18)) false) ∧
      0 < edgeCaseSqrtPriceNextBigDec (10 ^ 18) (10 ^ 36) 1 :=
  computeSwapOutGivenIn_edge_case ⟨10 ^ 19, 0⟩ (10 ^ 18) (10 ^ 18 + 1) (10 ^ 36) 1
    (by decide) (by decide) (by decide) (by decide) (by decide) (by decide) (by decide)

/-- C4 counterexample: with a sqrt price limit of 1 and a next-tick sqrt price
of 2, GetSqrtTargetPrice returns the limit 1, not the max 2 of the two. -/
theorem getSqrtTargetPrice_not_max :
    (⟨1, 0⟩ : OneForZeroStrategy).GetSqrtTargetPrice 2 ≠ max 2 1 := by decide

/-- C4 (amended): for every input, GetSqrtTargetPrice of the price-increasing
strategy clamps the next-tick sqrt price by the caller's sqrt price limit by
taking the minimum of the two — the tighter upper bound in the
price-increasing direction. -/
theorem getSqrtTargetPrice_eq_min (s : OneForZeroStrategy) (nextTickSqrtPrice : Int) :
    s.GetSqrtTargetPrice nextTickSqrtPrice = min nextTickSqrtPrice s.sqrtPriceLimit := by
  unfold OneForZeroStrategy.GetSqrtTargetPrice
  split <;> omega

/-- C5: ValidateSqrtPrice accepts the limit exactly when it lies between the
current sqrt price and the global maximum sqrt price, and returns a
SqrtPriceValidationError carrying the offending limit and both bounds for
every limit outside that range. -/
theorem validateSqrtPrice_spec (sqrtPrice currentSqrtPrice : Int) :
    (OneForZeroStrategy.ValidateSqrtPrice sqrtPrice currentSqrtPrice = none ↔
      currentSqrtPrice ≤ sqrtPrice ∧ sqrtPrice ≤ MaxSqrtPrice) ∧
    ((sqrtPrice < currentSqrtPrice ∨ MaxSqrtPrice < sqrtPrice) →
      OneForZeroStrategy.ValidateSqrtPrice sqrtPrice currentSqrtPrice =
        some ⟨sqrtPrice, currentSqrtPrice, MaxSqrtPrice⟩) := by
  constructor
  · unfold OneForZeroStrategy.ValidateSqrtPrice
    split
    · rename_i h
      constructor
      · intro hc
        exact absurd hc (Option.some_ne_none _)
      · intro hc
        exfalso
        rcases h with h | h <;> omega
    · rename_i h
      push_neg at h
      exact ⟨fun _ => h, fun _ => rfl⟩
  · intro h
    unfold OneForZeroStrategy.ValidateSqrtPrice
    rw [if_pos h]

/-- Witness for C5 at concrete inputs: an accepted limit and a rejected one. -/
theorem validateSqrtPrice_spec_witness :
    OneForZeroStrategy.ValidateSqrtPrice 5 3 = none ∧
      OneForZeroStrategy.ValidateSqrtPrice 2 3 = some ⟨2, 3, MaxSqrtPrice⟩ :=
  ⟨(validateSqrtPrice_spec 5 3).1.mpr (by constructor <;> decide),
    (validateSqrtPrice_spec 2 3).2 (by left; decide)⟩

/-! ### Tick iteration (one_for_zero.go lines 205-226) -/

/-- Modelled from the spec: the total-order-preserving fixed-width big-endian
encoding of a signed tick index (section 6) — the sign bit is flipped by
adding 2^63 and the 64-bit value is written as 8 big-endian bytes, so
lexicographic byte order matches numeric tick order. -/
def TickIndexToBytes (tickIndex : Int) : List Nat :=
  let n := (tickIndex + 2 ^ 63).toNat
  [n / 256 ^ 7 % 256, n / 256 ^ 6 % 256, n / 256 ^ 5 % 256, n / 256 ^ 4 % 256,
    n / 256 ^ 3 % 256, n / 256 ^ 2 % 256, n / 256 % 256, n % 256]

/-- Modelled from the spec: parsing a stored tick key back into a tick index;
parsing fails (returns none) when the key is not an 8-byte encoding. -/
def TickIndexFromBytes (key : List Nat) : Option Int :=
  match key with
  | [b0, b1, b2, b3, b4, b5, b6, b7] =>
    some (((((((((b0 * 256 + b1) * 256 + b2) * 256 + b3) * 256 + b4) * 256 + b5) * 256
      + b6) * 256 + b7 : Nat) : Int) - 2 ^ 63)
  | _ => none

/-- Outcome of InitializeNextTickIterator: either an iterator, whose position
is the found tick (invalid, meaning no further tick, encoded as none), or a Go
panic aborting the call, carrying the offending key. -/
inductive IterOutcome where
  | ok (next : Option Int)
  | panicked (key : List Nat)
deriving DecidableEq

/-- The iteration loop of InitializeNextTickIterator (one_for_zero.go lines
212-224), over the sequence of raw keys visited by the forward iterator: each
key is decoded — on failure the iterator is closed and the call panics —
ticks at or below the current tick index are skipped, and the loop stops at
the first tick strictly greater than the current tick index. -/
def nextTickIterLoop (currentTickIndex : Int) : List (List Nat) → IterOutcome
  | [] => IterOutcome.ok none
  | key :: rest =>
    match TickIndexFromBytes key with
    | none => IterOutcome.panicked key
    | some tick =>
      if currentTickIndex < tick then IterOutcome.ok (some tick)
      else nextTickIterLoop currentTickIndex rest

/-- InitializeNextTickIterator of the one-for-zero strategy (one_for_zero.go
lines 205-226): the pool's initialized ticks are stored under order-preserving
byte keys, the forward iterator starts at the key of the current tick index
(inclusive) and visits keys in ascending order, and the loop advances until a
tick strictly greater than the current tick index is found.  The pool's tick
store is passed as the list of its initialized tick indices in ascending
store order. -/
def InitializeNextTickIterator (ticks : List Int) (currentTickIndex : Int) : IterOutcome :=
  nextTickIterLoop currentTickIndex
    ((ticks.filter (fun t => decide (currentTickIndex ≤ t))).map TickIndexToBytes)

/-- Round trip of the tick key encoding on the int64 range. -/
theorem tickIndexFromBytes_toBytes {t : Int} (h1 : -2 ^ 63 ≤ t) (h2 : t < 2 ^ 63) :
    TickIndexFromBytes (TickIndexToBytes t) = some t := by
  unfold TickIndexToBytes TickIndexFromBytes
  simp only []
  congr 1
  set n := (t + 2 ^ 63).toNat with hndef
  have hn : (n : Int) = t + 2 ^ 63 := Int.toNat_of_nonneg (by omega)
  have hnlt : n < 2 ^ 64 := by omega
  have hrec : (((((((n / 256 ^ 7 % 256) * 256 + n / 256 ^ 6 % 256) * 256
      + n / 256 ^ 5 % 256) * 256 + n / 256 ^ 4 % 256) * 256 + n / 256 ^ 3 % 256) * 256
      + n / 256 ^ 2 % 256) * 256 + n / 256 % 256) * 256 + n % 256 = n := by
    simp only [show (256 : Nat) ^ 7 = 72057594037927936 from by norm_num,
      show (256 : Nat) ^ 6 = 281474976710656 from by norm_num,
      show (256 : Nat) ^ 5 = 1099511627776 from by norm_num,
      show (256 : Nat) ^ 4 = 4294967296 from by norm_num,
      show (256 : Nat) ^ 3 = 16777216 from by norm_num,
      show (256 : Nat) ^ 2 = 65536 from by norm_num] at *
    omega
  rw [hrec, hn]
  omega

/-- The iterator search is equivalent to taking the first stored tick strictly
greater than the current tick index: ticks below the start key are never
visited, and visited ticks at or below the current tick are skipped. -/
theorem initializeNextTickIterator_eq_find (ticks : List Int) (currentTickIndex : Int)
    (hrange : ∀ t ∈ ticks, -2 ^ 63 ≤ t ∧ t < 2 ^ 63) :
    InitializeNextTickIterator ticks currentTickIndex =
      IterOutcome.ok (ticks.find? (fun t => decide (currentTickIndex < t))) := by
  unfold InitializeNextTickIterator
  induction ticks with
  | nil => rfl
  | cons a rest ih =>
    have hra := hrange a (by simp)
    have hrrest : ∀ u ∈ rest, -2 ^ 63 ≤ u ∧ u < 2 ^ 63 :=
      fun u hu => hrange u (by simp [hu])
    by_cases h1 : currentTickIndex < a
    · have h2 : currentTickIndex ≤ a := le_of_lt h1
      simp [List.filter_cons, List.find?_cons, h1, h2, nextTickIterLoop,
        tickIndexFromBytes_toBytes hra.1 hra.2]
    · by_cases h2 : currentTickIndex ≤ a
      · simp [List.filter_cons, List.find?_cons, h1, h2, nextTickIterLoop,
          tickIndexFromBytes_toBytes hra.1 hra.2]
        exact ih hrrest
      · have h3 : ¬ currentTickIndex < a := h1
        simp [List.filter_cons, List.find?_cons, h2, h3]
        exact ih hrrest

/-- In a sorted tick list, the first tick found above the current tick index
is exactly the least initialized tick strictly greater than it. -/
theorem find_first_gt_sorted :
    ∀ (ticks : List Int), List.Sorted (· < ·) ticks → ∀ (currentTickIndex t : Int),
      (ticks.find? (fun u => decide (currentTickIndex < u)) = some t ↔
        t ∈ ticks ∧ currentTickIndex < t ∧ ∀ u ∈ ticks, currentTickIndex < u → t ≤ u) := by
  intro ticks
  induction ticks with
  | nil =>
    intro _ currentTickIndex t
    simp
  | cons a rest ih =>
    intro hs currentTickIndex t
    rw [List.sorted_cons] at hs
    obtain ⟨ha, hrest⟩ := hs
    by_cases h : currentTickIndex < a
    · simp only [List.find?_cons, h, decide_True, List.mem_cons, Option.some_inj]
      constructor
      · rintro rfl
        refine ⟨Or.inl rfl, h, ?_⟩
        intro u hu _
        rcases hu with rfl | hu
        · exact le_refl _
        · exact (ha u hu).le
      · rintro ⟨hmem, hct, hmin⟩
        rcases hmem with rfl | hmem
        · rfl
        · have h1 := hmin a (Or.inl rfl) h
          have h2 := ha t hmem
          omega
    · have hd : decide (currentTickIndex < a) = false := by simpa using h
      simp only [List.find?_cons, hd, List.mem_cons]
      rw [ih hrest currentTickIndex t]
      constructor
      · rintro ⟨hm, hct, hmin⟩
        refine ⟨Or.inr hm, hct, ?_⟩
        intro u hu hcu
        rcases hu with rfl | hu
        · exact absurd hcu h
        · exact hmin u hu hcu
      · rintro ⟨hm, hct, hmin⟩
        rcases hm with rfl | hm
        · exact absurd hct h
        · exact ⟨hm, hct, fun u hu hcu => hmin u (Or.inr hu) hcu⟩

/-- C6: on a pool's sorted store of initialized ticks (within the int64 key
range), InitializeNextTickIterator of the price-increasing strategy positions
the iterator on the smallest initialized tick strictly greater than the
current tick index, and yields an invalid iterator (none) exactly when no such
tick exists. -/
theorem initializeNextTickIterator_spec (ticks : List Int) (currentTickIndex : Int)
    (hsorted : List.Sorted (· < ·) ticks)
    (hrange : ∀ t ∈ ticks, -2 ^ 63 ≤ t ∧ t < 2 ^ 63) :
    (∀ t : Int, InitializeNextTickIterator ticks currentTickIndex = IterOutcome.ok (some t) ↔
      t ∈ ticks ∧ currentTickIndex < t ∧ ∀ u ∈ ticks, currentTickIndex < u → t ≤ u) ∧
    (InitializeNextTickIterator ticks currentTickIndex = IterOutcome.ok none ↔
      ∀ t ∈ ticks, t ≤ currentTickIndex) := by
  rw [initializeNextTickIterator_eq_find ticks currentTickIndex hrange]
  constructor
  · intro t
    simp only [IterOutcome.ok.injEq]
    exact find_first_gt_sorted ticks hsorted currentTickIndex t
  · simp only [IterOutcome.ok.injEq]
    rw [List.find?_eq_none]
    constructor
    · intro h t ht
      have h1 := h t ht
      simp only [decide_eq_true_eq] at h1
      omega
    · intro h t ht
      simpa using not_lt.mpr (h t ht)

/-- Witness for C6 at a concrete store: the smallest tick above 3 in the
store containing ticks -5, 3 and 10 is 10. -/
theorem initializeNextTickIterator_spec_witness :
    InitializeNextTickIterator [-5, 3, 10] 3 = IterOutcome.ok (some 10) :=
  ((initializeNextTickIterator_spec [-5, 3, 10] 3 (by decide) (by decide)).1 10).mpr
    (by decide)

/-- C7 counterexample: the one-byte key 7 cannot be parsed as a tick index,
and the next-tick iteration encountering it panics — aborting the call —
instead of reporting a typed decode error to the caller. -/
theorem nextTickIterLoop_panics_counterexample :
    TickIndexFromBytes [7] = none ∧
      nextTickIterLoop 0 [[7]] = IterOutcome.panicked [7] := ⟨rfl, rfl⟩

/-- C7 (amended): whenever a corrupted key appears among the keys visited by
the next-tick iteration before any key decoding to a tick greater than the
current tick index, the loop panics on that key after closing the iterator; no
typed error is returned to the caller. -/
theorem nextTickIterLoop_panics_on_corrupt_key (currentTickIndex : Int)
    (visitedBefore : List (List Nat)) (key : List Nat) (visitedAfter : List (List Nat))
    (hbefore : ∀ p ∈ visitedBefore, ∃ t, TickIndexFromBytes p = some t ∧ t ≤ currentTickIndex)
    (hkey : TickIndexFromBytes key = none) :
    nextTickIterLoop currentTickIndex (visitedBefore ++ key :: visitedAfter) =
      IterOutcome.panicked key := by
  induction visitedBefore with
  | nil =>
    simp only [List.nil_append, nextTickIterLoop, hkey]
  | cons p ps ih =>
    obtain ⟨t, hdec, hle⟩ := hbefore p (by simp)
    simp only [List.cons_append, nextTickIterLoop, hdec]
    rw [if_neg (by omega)]
    exact ih (fun q hq => hbefore q (by simp [hq]))

/-- Witness for the amended C7: a well-formed key for tick 1 followed by the
corrupted two-byte key 9 9, with current tick index 5, makes the loop panic on
the corrupted key. -/
theorem nextTickIterLoop_panics_on_corrupt_key_witness :
    nextTickIterLoop 5 [TickIndexToBytes 1, [9, 9]] = IterOutcome.panicked [9, 9] :=
  nextTickIterLoop_panics_on_corrupt_key 5 [TickIndexToBytes 1] [9, 9] []
    (by
      intro p hp
      simp only [List.mem_singleton] at hp
      subst hp
      exact ⟨1, by decide, by decide⟩)
    (by decide)

/-! ### Position bookkeeping (concentrated_liquidity keeper) -/

/-- Modelled from the spec: a position record (section 3) — owner, pool id,
lower tick, upper tick and a liquidity amount; the position store of the
keeper is not part of the provided source tree and is modelled as a total map
from position keys to records. -/
structure Position where
  owner : String
  poolId : Nat
  lowerTick : Int
  upperTick : Int
  liquidity : Int
deriving DecidableEq

/-- The store key of a position: pool id, owner, lower tick, upper tick. -/
abbrev PositionKey := Nat × String × Int × Int

/-- KeyPosition builds the store key of a position. -/
def KeyPosition (poolId : Nat) (owner : String) (lowerTick upperTick : Int) : PositionKey :=
  (poolId, owner, lowerTick, upperTick)

/-- The getPosition helper of the keeper: reads the position stored under the
key of the given pool, owner and tick range. -/
def getPosition (store : PositionKey → Position) (poolId : Nat) (owner : String)
    (lowerTick upperTick : Int) : Position :=
  store (KeyPosition poolId owner lowerTick upperTick)

/-- The setPosition helper of the keeper: writes the given position under the
key of the given pool, owner and tick range. -/
def setPosition (store : PositionKey → Position) (poolId : Nat) (owner : String)
    (lowerTick upperTick : Int) (position : Position) : PositionKey → Position :=
  fun k => if k = KeyPosition poolId owner lowerTick upperTick then position else store k

/-- UpdatePositionWithLiquidity of the concentrated_liquidity keeper: reads
the position, adds the liquidity delta to its liquidity, and writes it back. -/
def UpdatePositionWithLiquidity (store : PositionKey → Position) (poolId : Nat)
    (owner : String) (lowerTick upperTick : Int) (liquidityDelta : Int) :
    PositionKey → Position :=
  let position := getPosition store poolId owner lowerTick upperTick
  let liquidityAfter := position.liquidity + liquidityDelta
  setPosition store poolId owner lowerTick upperTick
    { position with liquidity := liquidityAfter }

/-- C8: for every stored position and every liquidity delta — positive or
negative, with no check preventing a negative result —
UpdatePositionWithLiquidity sets the stored position's liquidity to its
previous liquidity plus the delta, changes no other field of the position, and
leaves every other key of the store untouched. -/
theorem updatePositionWithLiquidity_spec (store : PositionKey → Position) (poolId : Nat)
    (owner : String) (lowerTick upperTick liquidityDelta : Int) :
    (UpdatePositionWithLiquidity store poolId owner lowerTick upperTick liquidityDelta
        (KeyPosition poolId owner lowerTick upperTick)).liquidity =
      (store (KeyPosition poolId owner lowerTick upperTick)).liquidity + liquidityDelta ∧
    (UpdatePositionWithLiquidity store poolId owner lowerTick upperTick liquidityDelta
        (KeyPosition poolId owner lowerTick upperTick)).owner =
      (store (KeyPosition poolId owner lowerTick upperTick)).owner ∧
    (UpdatePositionWithLiquidity store poolId owner lowerTick upperTick liquidityDelta
        (KeyPosition poolId owner lowerTick upperTick)).poolId =
      (store (KeyPosition poolId owner lowerTick upperTick)).poolId ∧
    (UpdatePositionWithLiquidity store poolId owner lowerTick upperTick liquidityDelta
        (KeyPosition poolId owner lowerTick upperTick)).lowerTick =
      (store (KeyPosition poolId owner lowerTick upperTick)).lowerTick ∧
    (UpdatePositionWithLiquidity store poolId owner lowerTick upperTick liquidityDelta
        (KeyPosition poolId owner lowerTick upperTick)).upperTick =
      (store (KeyPosition poolId owner lowerTick upperTick)).upperTick ∧
    ∀ k, k ≠ KeyPosition poolId owner lowerTick upperTick →
      UpdatePositionWithLiquidity store poolId owner lowerTick upperTick liquidityDelta k =
        store k := by
  unfold UpdatePositionWithLiquidity setPosition getPosition
  refine ⟨by simp, by simp, by simp, by simp, by simp, ?_⟩
  intro k hk
  simp [hk]

/-- Witness for C8: a delta of -5 on a position holding 3 liquidity leaves a
stored liquidity of -2, and a distinct key is untouched. -/
theorem updatePositionWithLiquidity_spec_witness :
    (UpdatePositionWithLiquidity (fun _ => ⟨"alice", 1, 0, 2, 3⟩) 1 "alice" 0 2 (-5)
        (KeyPosition 1 "alice" 0 2)).liquidity = -2 ∧
      UpdatePositionWithLiquidity (fun _ => ⟨"alice", 1, 0, 2, 3⟩) 1 "alice" 0 2 (-5)
        (KeyPosition 1 "bob" 0 2) = ⟨"alice", 1, 0, 2, 3⟩ :=
  ⟨((updatePositionWithLiquidity_spec (fun _ => ⟨"alice", 1, 0, 2, 3⟩)
      1 "alice" 0 2 (-5)).1).trans (by decide),
    (updatePositionWithLiquidity_spec (fun _ => ⟨"alice", 1, 0, 2, 3⟩)
      1 "alice" 0 2 (-5)).2.2.2.2.2 (KeyPosition 1 "bob" 0 2) (by decide)⟩

/-! ### Authenticator message server (x/authenticator/keeper/msg_server.go) -/

/-- An account address, as raw bytes (sdk.AccAddress). -/
abbrev AccAddress := List Nat

/-- The MsgAddAuthenticator message: sender bech32 string, authenticator type,
and raw authenticator data. -/
structure MsgAddAuthenticator where
  sender : String
  type : String
  data : List Nat
deriving DecidableEq

/-- Modelled from the spec-external authenticator implementation: the name of
the signature-verification authenticator type; only its identity matters, the
message server compares msg.Type against it. -/
def SignatureVerificationAuthenticatorType : String :=
  "SignatureVerificationAuthenticator"

/-- The error cases of the AddAuthenticator message handler. -/
inductive AddAuthenticatorError where
  | invalidSender
  | firstMustBeSignatureVerification
  | firstMustMatchAccount (expected got : AccAddress)
  | maxAuthenticatorsReached
deriving DecidableEq

/-- Result of the AddAuthenticator handler: the authenticator store after the
call — unchanged whenever an error is returned, since every error return
happens before the keeper write — and the response (Success flag) or error. -/
structure AddAuthenticatorResult where
  store : AccAddress → List (String × List Nat)
  result : Except AddAuthenticatorError Bool

/-- AddAuthenticator of the authenticator msgServer (msg_server.go lines
30-84).  The bech32 address parser and the secp256k1 public-key address
derivation are external collaborators passed as functions; the keeper's
GetAuthenticatorsForAccount is modelled as a store lookup and its
AddAuthenticator as appending to the sender's authenticator list. -/
def AddAuthenticator
    (accAddressFromBech32 : String → Option AccAddress)
    (pubKeyAddress : List Nat → AccAddress)
    (store : AccAddress → List (String × List Nat))
    (msg : MsgAddAuthenticator) : AddAuthenticatorResult :=
  match accAddressFromBech32 msg.sender with
  | none => { store := store, result := Except.error AddAuthenticatorError.invalidSender }
  | some sender =>
    let authenticators := store sender
    if authenticators.length = 0 ∧ msg.type ≠ SignatureVerificationAuthenticatorType then
      { store := store
        result := Except.error AddAuthenticatorError.firstMustBeSignatureVerification }
    else if authenticators.length = 0 ∧ pubKeyAddress msg.data ≠ sender then
      { store := store
        result := Except.error
          (AddAuthenticatorError.firstMustMatchAccount sender (pubKeyAddress msg.data)) }
    else if 15 ≤ authenticators.length then
      { store := store
        result := Except.error AddAuthenticatorError.maxAuthenticatorsReached }
    else
      { store := fun a => if a = sender then store sender ++ [(msg.type, msg.data)] else store a
        result := Except.ok true }

/-- C9: when the sender's account already holds 15 (or more) authenticators,
AddAuthenticator returns the maximum-authenticators error and leaves the store
unchanged, preserving the at-most-15 invariant. -/
theorem addAuthenticator_limit
    (accAddressFromBech32 : String → Option AccAddress)
    (pubKeyAddress : List Nat → AccAddress)
    (store : AccAddress → List (String × List Nat))
    (msg : MsgAddAuthenticator) (sender : AccAddress)
    (hparse : accAddressFromBech32 msg.sender = some sender)
    (hlen : 15 ≤ (store sender).length) :
    (AddAuthenticator accAddressFromBech32 pubKeyAddress store msg).store = store ∧
    (AddAuthenticator accAddressFromBech32 pubKeyAddress store msg).result =
      Except.error AddAuthenticatorError.maxAuthenticatorsReached := by
  unfold AddAuthenticator
  rw [hparse]
  dsimp only
  have h0 : ¬ (store sender).length = 0 := by omega
  rw [if_neg (fun hc => h0 hc.1), if_neg (fun hc => h0 hc.1), if_pos hlen]
  exact ⟨rfl, rfl⟩

/-- Bech32 parser fixture for the authenticator witnesses. -/
def sampleAccAddressFromBech32 : String → Option AccAddress :=
  fun s => if s = "osmo1sender" then some [1] else none

/-- Public-key address derivation fixture for the authenticator witnesses. -/
def samplePubKeyAddress : List Nat → AccAddress :=
  fun data => if data = [3, 3] then [1] else [2]

/-- A store fixture holding 15 authenticators for account [1]. -/
def sampleFullStore : AccAddress → List (String × List Nat) :=
  fun a => if a = [1] then List.replicate 15 (SignatureVerificationAuthenticatorType, [0]) else []

/-- An empty authenticator store fixture. -/
def sampleEmptyStore : AccAddress → List (String × List Nat) := fun _ => []

/-- Witness for C9: adding a sixteenth authenticator fails and changes
nothing. -/
theorem addAuthenticator_limit_witness :
    (AddAuthenticator sampleAccAddressFromBech32 samplePubKeyAddress sampleFullStore
        ⟨"osmo1sender", "MessageFilterAuthenticator", [3, 3]⟩).store = sampleFullStore ∧
    (AddAuthenticator sampleAccAddressFromBech32 samplePubKeyAddress sampleFullStore
        ⟨"osmo1sender", "MessageFilterAuthenticator", [3, 3]⟩).result =
      Except.error AddAuthenticatorError.maxAuthenticatorsReached :=
  addAuthenticator_limit sampleAccAddressFromBech32 samplePubKeyAddress sampleFullStore
    ⟨"osmo1sender", "MessageFilterAuthenticator", [3, 3]⟩ [1] (by decide) (by decide)

/-- C10: when the sender's account has no authenticators yet, AddAuthenticator
can succeed only if the requested type is the signature-verification type and
the address derived from msg.Data equals the sender; in every other case it
returns an error and adds nothing to the store. -/
theorem addAuthenticator_first_authenticator
    (accAddressFromBech32 : String → Option AccAddress)
    (pubKeyAddress : List Nat → AccAddress)
    (store : AccAddress → List (String × List Nat))
    (msg : MsgAddAuthenticator) (sender : AccAddress)
    (hparse : accAddressFromBech32 msg.sender = some sender)
    (hempty : store sender = []) :
    ((∃ r, (AddAuthenticator accAddressFromBech32 pubKeyAddress store msg).result =
        Except.ok r) →
      msg.type = SignatureVerificationAuthenticatorType ∧
        pubKeyAddress msg.data = sender) ∧
    (¬ (msg.type = SignatureVerificationAuthenticatorType ∧
        pubKeyAddress msg.data = sender) →
      (∃ e, (AddAuthenticator accAddressFromBech32 pubKeyAddress store msg).result =
          Except.error e) ∧
        (AddAuthenticator accAddressFromBech32 pubKeyAddress store msg).store = store) := by
  unfold AddAuthenticator
  rw [hparse]
  dsimp only
  by_cases h1 : msg.type = SignatureVerificationAuthenticatorType
  · by_cases h2 : pubKeyAddress msg.data = sender
    · rw [if_neg (fun hc => hc.2 h1), if_neg (fun hc => hc.2 h2),
        if_neg (by simp [hempty])]
      exact ⟨fun _ => ⟨h1, h2⟩, fun hc => absurd ⟨h1, h2⟩ hc⟩
    · rw [if_neg (fun hc => hc.2 h1), if_pos ⟨by simp [hempty], h2⟩]
      constructor
      · rintro ⟨r, hr⟩
        simp at hr
      · intro _
        exact ⟨⟨_, rfl⟩, rfl⟩
  · rw [if_pos ⟨by simp [hempty], h1⟩]
    constructor
    · rintro ⟨r, hr⟩
      simp at hr
    · intro _
      exact ⟨⟨_, rfl⟩, rfl⟩

/-- Witness for C10: a first authenticator of a non-signature-verification
type is rejected and the store stays empty. -/
theorem addAuthenticator_first_authenticator_witness :
    (∃ e, (AddAuthenticator sampleAccAddressFromBech32 samplePubKeyAddress sampleEmptyStore
        ⟨"osmo1sender", "MessageFilterAuthenticator", [3, 3]⟩).result = Except.error e) ∧
    (AddAuthenticator sampleAccAddressFromBech32 samplePubKeyAddress sampleEmptyStore
        ⟨"osmo1sender", "MessageFilterAuthenticator", [3, 3]⟩).store = sampleEmptyStore :=
  (addAuthenticator_first_authenticator sampleAccAddressFromBech32 samplePubKeyAddress
      sampleEmptyStore ⟨"osmo1sender", "MessageFilterAuthenticator", [3, 3]⟩ [1]
      (by decide) rfl).2
    (by decide)
